import Mathlib

/-!
Verification of the PeaPod core coordination engine (crate `pea-core`).

This file shallowly embeds the Rust sources of `pea-core` in Lean 4:
`integrity.rs` (SHA-256 chunk hashing, peer trust tracking), `chunk.rs`
(splitting, transfer state, chunk receipt), `scheduler.rs` (round-robin and
metrics-aware assignment), `protocol.rs` / `wire.rs` (message enum, bincode
serialization, length-prefixed framing) and `core.rs` (the `PeaPodCore`
coordinator).  Machine integers (`u64`, `u32`, ...) are modelled as `Nat`
with explicit `% 2 ^ w` or saturation wherever the Rust code can overflow
or saturate; `HashMap` / `HashSet` are modelled as association lists with
lookup-based update (no modelled operation iterates over a map); fallible
or panicking code returns `Option` / `Except`.  Randomness (UUID transfer
ids, keypair generation) is externalized as explicit parameters.
-/

set_option maxRecDepth 200000

namespace PeaPod

/-! ## Association-list maps (model of `HashMap` / `HashSet`) -/

/-- Lookup in an association list (model of `HashMap::get`). -/
def lookupA {K V : Type} [DecidableEq K] : List (K × V) → K → Option V
  | [], _ => none
  | (k', v) :: t, k => if k' = k then some v else lookupA t k

/-- Insert-or-replace in an association list (model of `HashMap::insert`). -/
def upsertA {K V : Type} [DecidableEq K] : List (K × V) → K → V → List (K × V)
  | [], k, v => [(k, v)]
  | (k', v') :: t, k, v => if k' = k then (k, v) :: t else (k', v') :: upsertA t k v

/-- Remove a key from an association list (model of `HashMap::remove`). -/
def eraseA {K V : Type} [DecidableEq K] (l : List (K × V)) (k : K) : List (K × V) :=
  l.filter (fun p => p.1 ≠ k)

theorem lookupA_upsertA_self {K V : Type} [DecidableEq K] (l : List (K × V)) (k : K) (v : V) :
    lookupA (upsertA l k v) k = some v := by
  induction l with
  | nil => simp [lookupA, upsertA]
  | cons h t ih =>
    by_cases hk : h.1 = k
    · simp [upsertA, lookupA, hk]
    · simp [upsertA, lookupA, hk, ih]

theorem lookupA_upsertA_ne {K V : Type} [DecidableEq K] (l : List (K × V)) (k k' : K) (v : V)
    (h : k ≠ k') : lookupA (upsertA l k v) k' = lookupA l k' := by
  have h' : ¬(k = k') := h
  induction l with
  | nil => simp [lookupA, upsertA, h']
  | cons hd t ih =>
    obtain ⟨a, b⟩ := hd
    by_cases hk : a = k
    · have : ¬(a = k') := fun e => h (hk.symm.trans e)
      simp [upsertA, lookupA, hk, h', this]
    · by_cases hk' : a = k'
      · have h2 : ¬(k' = k) := fun e => h e.symm
        simp [upsertA, lookupA, hk, hk', h2]
      · simp [upsertA, lookupA, hk, hk', ih]

theorem upsertA_eq_self {K V : Type} [DecidableEq K] (l : List (K × V)) (k : K) (v : V)
    (h : lookupA l k = some v) : upsertA l k v = l := by
  induction l with
  | nil => simp [lookupA] at h
  | cons hd t ih =>
    obtain ⟨a, b⟩ := hd
    by_cases hk : a = k
    · simp [lookupA, hk] at h
      simp [upsertA, hk, h]
    · simp [lookupA, hk] at h
      simp [upsertA, hk, ih h]

theorem eraseA_eq_self {K V : Type} [DecidableEq K] (l : List (K × V)) (k : K)
    (h : lookupA l k = none) : eraseA l k = l := by
  induction l with
  | nil => simp [eraseA]
  | cons hd t ih =>
    obtain ⟨a, b⟩ := hd
    by_cases hk : a = k
    · simp [lookupA, hk] at h
    · simp [lookupA, hk] at h
      simp only [eraseA] at ih ⊢
      rw [List.filter_cons, if_pos (by simp [hk]), ih h]

/-! ## SHA-256 (the `sha2` crate as used by `integrity::hash_chunk`)

A byte is a `Nat` below 256; a word is a `Nat` below `2 ^ 32`.  This is the
FIPS 180-4 SHA-256 function computed by `sha2::Sha256` in `integrity.rs`.
-/

/-- Right rotation of a 32-bit word. -/
def rotr32 (n x : Nat) : Nat := ((x >>> n) ||| (x <<< (32 - n))) % 2 ^ 32

/-- SHA-256 round constants (fractional parts of cube roots of the first 64 primes). -/
def sha256K : List Nat :=
  [1116352408, 1899447441, 3049323471, 3921009573, 961987163, 1508970993, 2453635748,
   2870763221, 3624381080, 310598401, 607225278, 1426881987, 1925078388, 2162078206,
   2614888103, 3248222580, 3835390401, 4022224774, 264347078, 604807628, 770255983,
   1249150122, 1555081692, 1996064986, 2554220882, 2821834349, 2952996808, 3210313671,
   3336571891, 3584528711, 113926993, 338241895, 666307205, 773529912, 1294757372,
   1396182291, 1695183700, 1986661051, 2177026350, 2456956037, 2730485921, 2820302411,
   3259730800, 3345764771, 3516065817, 3600352804, 4094571909, 275423344, 430227734,
   506948616, 659060556, 883997877, 958139571, 1322822218, 1537002063, 1747873779,
   1955562222, 2024104815, 2227730452, 2361852424, 2428436474, 2756734187, 3204031479,
   3329325298]

/-- SHA-256 initial hash value (fractional parts of square roots of the first 8 primes). -/
def sha256H0 : List Nat :=
  [1779033703, 3144134277, 1013904242, 2773480762, 1359893119, 2600822924, 528734635,
   1541459225]

/-- Big-endian 4-byte encoding of a 32-bit word. -/
def u32BytesBE (v : Nat) : List Nat :=
  [v / 2 ^ 24 % 256, v / 2 ^ 16 % 256, v / 2 ^ 8 % 256, v % 256]

/-- Big-endian 8-byte encoding of a 64-bit value. -/
def u64BytesBE (v : Nat) : List Nat :=
  [v / 2 ^ 56 % 256, v / 2 ^ 48 % 256, v / 2 ^ 40 % 256, v / 2 ^ 32 % 256,
   v / 2 ^ 24 % 256, v / 2 ^ 16 % 256, v / 2 ^ 8 % 256, v % 256]

/-- Group a padded byte stream into big-endian 32-bit words. -/
def bytesToWordsBE : List Nat → List Nat
  | b0 :: b1 :: b2 :: b3 :: rest =>
      (b0 * 2 ^ 24 + b1 * 2 ^ 16 + b2 * 2 ^ 8 + b3) :: bytesToWordsBE rest
  | _ => []

/-- Group a word stream into 16-word blocks. -/
def wordsToBlocks : List Nat → List (List Nat)
  | w0 :: w1 :: w2 :: w3 :: w4 :: w5 :: w6 :: w7 ::
    w8 :: w9 :: w10 :: w11 :: w12 :: w13 :: w14 :: w15 :: rest =>
      [w0, w1, w2, w3, w4, w5, w6, w7, w8, w9, w10, w11, w12, w13, w14, w15] ::
        wordsToBlocks rest
  | _ => []

/-- Extend a 16-word block with `t` additional message-schedule words. -/
def sha256Extend (w : List Nat) : Nat → List Nat
  | 0 => w
  | t + 1 =>
      let n := w.length
      let w2 := w.getD (n - 2) 0
      let w7 := w.getD (n - 7) 0
      let w15 := w.getD (n - 15) 0
      let w16 := w.getD (n - 16) 0
      let s0 := (rotr32 7 w15) ^^^ (rotr32 18 w15) ^^^ (w15 >>> 3)
      let s1 := (rotr32 17 w2) ^^^ (rotr32 19 w2) ^^^ (w2 >>> 10)
      sha256Extend (w ++ [(w16 + s0 + w7 + s1) % 2 ^ 32]) t

/-- One SHA-256 compression round on the 8-word working state. -/
def sha256Round (st : List Nat) (kw : Nat × Nat) : List Nat :=
  let a := st.getD 0 0
  let b := st.getD 1 0
  let c := st.getD 2 0
  let d := st.getD 3 0
  let e := st.getD 4 0
  let f := st.getD 5 0
  let g := st.getD 6 0
  let h := st.getD 7 0
  let s1 := (rotr32 6 e) ^^^ (rotr32 11 e) ^^^ (rotr32 25 e)
  let ch := (e &&& f) ^^^ ((2 ^ 32 - 1 - e) &&& g)
  let t1 := (h + s1 + ch + kw.1 + kw.2) % 2 ^ 32
  let s0 := (rotr32 2 a) ^^^ (rotr32 13 a) ^^^ (rotr32 22 a)
  let maj := (a &&& b) ^^^ (a &&& c) ^^^ (b &&& c)
  let t2 := (s0 + maj) % 2 ^ 32
  [(t1 + t2) % 2 ^ 32, a, b, c, (d + t1) % 2 ^ 32, e, f, g]

/-- Process one 16-word block against the running 8-word hash state. -/
def sha256Block (h : List Nat) (block : List Nat) : List Nat :=
  let w := sha256Extend block 48
  let final := (sha256K.zip w).foldl sha256Round h
  List.zipWith (fun x y => (x + y) % 2 ^ 32) h final

/-- SHA-256 of a byte list, as a 32-byte list. -/
def sha256 (msg : List Nat) : List Nat :=
  let l := msg.length
  let padded := msg ++ [128] ++ List.replicate ((119 - l % 64) % 64) 0 ++ u64BytesBE (8 * l)
  let blocks := wordsToBlocks (bytesToWordsBE padded)
  (blocks.foldl sha256Block sha256H0).flatMap u32BytesBE

/-- Sanity: SHA-256 of "abc" (bytes 97, 98, 99) matches the FIPS 180-4 test vector. -/
theorem sha256_abc :
    sha256 [97, 98, 99] =
      [186, 120, 22, 191, 143, 1, 207, 234, 65, 65, 64, 222, 93, 174, 34, 35,
       176, 3, 97, 163, 150, 23, 122, 156, 180, 16, 255, 97, 242, 0, 21, 173] := by
  decide

/-! ## Identity (`identity.rs`)

Only the data carried on the wire is needed by the claims: `DeviceId`
(16 bytes) and `PublicKey` (32 bytes).  Key generation and Diffie-Hellman
use the OS CSPRNG / `x25519_dalek` and are externalized: the coordinator
only ever uses `Keypair::device_id()`, which we pass in as a value.
-/

/-- `identity::DeviceId`: a 16-byte identifier (bytes as `Nat`s below 256). -/
structure DeviceId where
  bytes : List Nat
deriving DecidableEq, Repr

/-- `identity::PublicKey`: a 32-byte X25519 public key. -/
structure PublicKey where
  bytes : List Nat
deriving DecidableEq, Repr

/-- `PublicKey::from_bytes`. -/
def PublicKey.from_bytes (b : List Nat) : PublicKey := ⟨b⟩

/-! ## Protocol messages (`protocol.rs`) -/

/-- `protocol::PROTOCOL_VERSION`. -/
def PROTOCOL_VERSION : Nat := 1

/-- `protocol::Message`: the wire message enum, in declaration order (the
bincode variant tag is the declaration index). -/
inductive Message where
  | Beacon (protocol_version : Nat) (device_id : DeviceId) (public_key : PublicKey)
      (listen_port : Nat)
  | DiscoveryResponse (protocol_version : Nat) (device_id : DeviceId) (public_key : PublicKey)
      (listen_port : Nat)
  | Join (device_id : DeviceId)
  | Leave (device_id : DeviceId)
  | Heartbeat (device_id : DeviceId)
  | ChunkRequest (transfer_id : List Nat) (start : Nat) (end_ : Nat)
  | ChunkData (transfer_id : List Nat) (start : Nat) (end_ : Nat) (hash : List Nat)
      (payload : List Nat)
  | Nack (transfer_id : List Nat) (start : Nat) (end_ : Nat)
deriving DecidableEq, Repr

/-- Well-formedness induced by the Rust types: `u8`/`u16`/`u64` fields are in
range and the fixed-size byte arrays (`[u8; 16]`, `[u8; 32]`) have the right
length.  Every Rust `Message` value satisfies this by construction. -/
def Message.WF : Message → Prop
  | .Beacon v d pk port =>
      v < 2 ^ 8 ∧ d.bytes.length = 16 ∧ pk.bytes.length = 32 ∧ port < 2 ^ 16
  | .DiscoveryResponse v d pk port =>
      v < 2 ^ 8 ∧ d.bytes.length = 16 ∧ pk.bytes.length = 32 ∧ port < 2 ^ 16
  | .Join d => d.bytes.length = 16
  | .Leave d => d.bytes.length = 16
  | .Heartbeat d => d.bytes.length = 16
  | .ChunkRequest t s e => t.length = 16 ∧ s < 2 ^ 64 ∧ e < 2 ^ 64
  | .ChunkData t s e h p =>
      t.length = 16 ∧ s < 2 ^ 64 ∧ e < 2 ^ 64 ∧ h.length = 32 ∧ p.length < 2 ^ 64
  | .Nack t s e => t.length = 16 ∧ s < 2 ^ 64 ∧ e < 2 ^ 64

instance : DecidablePred Message.WF := by
  intro m
  cases m <;> simp [Message.WF] <;> infer_instance

/-! ## Wire codec (`wire.rs`)

Framing is a 4-byte little-endian length followed by the bincode 1.x
serialization of `Message` (fixed-width integers, little-endian: enum tags
as `u32`, sequence lengths as `u64`, `[u8; N]` arrays raw). -/

/-- Little-endian 2-byte encoding of a `u16` value. -/
def u16LE (v : Nat) : List Nat := [v % 256, v / 256 % 256]

/-- Little-endian 4-byte encoding of a `u32` value. -/
def u32LE (v : Nat) : List Nat :=
  [v % 256, v / 256 % 256, v / 2 ^ 16 % 256, v / 2 ^ 24 % 256]

/-- Little-endian 8-byte encoding of a `u64` value. -/
def u64LE (v : Nat) : List Nat :=
  [v % 256, v / 256 % 256, v / 2 ^ 16 % 256, v / 2 ^ 24 % 256,
   v / 2 ^ 32 % 256, v / 2 ^ 40 % 256, v / 2 ^ 48 % 256, v / 2 ^ 56 % 256]

/-- Bincode serialization of a byte sequence (`Vec<u8>` / `&[u8]`):
a `u64` length followed by the bytes. -/
def vecBytes (l : List Nat) : List Nat := u64LE l.length ++ l

/-- Bincode serialization of `Message` (`bincode::serialize`). -/
def serializeMessage : Message → List Nat
  | .Beacon v d pk port => u32LE 0 ++ [v % 256] ++ vecBytes d.bytes ++ vecBytes pk.bytes ++
      u16LE port
  | .DiscoveryResponse v d pk port => u32LE 1 ++ [v % 256] ++ vecBytes d.bytes ++
      vecBytes pk.bytes ++ u16LE port
  | .Join d => u32LE 2 ++ vecBytes d.bytes
  | .Leave d => u32LE 3 ++ vecBytes d.bytes
  | .Heartbeat d => u32LE 4 ++ vecBytes d.bytes
  | .ChunkRequest t s e => u32LE 5 ++ t ++ u64LE s ++ u64LE e
  | .ChunkData t s e h p => u32LE 6 ++ t ++ u64LE s ++ u64LE e ++ h ++ vecBytes p
  | .Nack t s e => u32LE 7 ++ t ++ u64LE s ++ u64LE e

/-- Read `n` raw bytes from the front of a stream. -/
def readN (n : Nat) (l : List Nat) : Option (List Nat × List Nat) :=
  if n ≤ l.length then some (l.take n, l.drop n) else none

/-- Value of a little-endian byte list. -/
def leVal (bs : List Nat) : Nat := bs.foldr (fun b acc => b + 256 * acc) 0

/-- Read a little-endian `u16`. -/
def readU16 (l : List Nat) : Option (Nat × List Nat) :=
  (readN 2 l).map (fun p => (leVal p.1, p.2))

/-- Read a little-endian `u32`. -/
def readU32 (l : List Nat) : Option (Nat × List Nat) :=
  (readN 4 l).map (fun p => (leVal p.1, p.2))

/-- Read a little-endian `u64`. -/
def readU64 (l : List Nat) : Option (Nat × List Nat) :=
  (readN 8 l).map (fun p => (leVal p.1, p.2))

/-- Read a single byte (`u8`). -/
def readU8 (l : List Nat) : Option (Nat × List Nat) :=
  match l with
  | b :: rest => some (b, rest)
  | [] => none

/-- Read a bincode byte sequence: `u64` length then that many bytes. -/
def readVec (l : List Nat) : Option (List Nat × List Nat) :=
  match readU64 l with
  | some (n, rest) => readN n rest
  | none => none

/-- Bincode deserialization of `Message` (`bincode::deserialize`); trailing
bytes are ignored, exactly as bincode 1.x does on a byte slice.  The
16-byte / 32-byte checks mirror the `try_into` conversions in the serde
helpers `bytes_16` / `bytes_32` of `identity.rs`. -/
def deserializeMessage (l : List Nat) : Option Message :=
  (readU32 l).bind fun t0 =>
    if t0.1 = 0 then
      (readU8 t0.2).bind fun a1 =>
        (readVec a1.2).bind fun a2 =>
          if a2.1.length = 16 then
            (readVec a2.2).bind fun a3 =>
              if a3.1.length = 32 then
                (readU16 a3.2).bind fun a4 => some (.Beacon a1.1 ⟨a2.1⟩ ⟨a3.1⟩ a4.1)
              else none
          else none
    else if t0.1 = 1 then
      (readU8 t0.2).bind fun a1 =>
        (readVec a1.2).bind fun a2 =>
          if a2.1.length = 16 then
            (readVec a2.2).bind fun a3 =>
              if a3.1.length = 32 then
                (readU16 a3.2).bind fun a4 => some (.DiscoveryResponse a1.1 ⟨a2.1⟩ ⟨a3.1⟩ a4.1)
              else none
          else none
    else if t0.1 = 2 then
      (readVec t0.2).bind fun a1 =>
        if a1.1.length = 16 then some (.Join ⟨a1.1⟩) else none
    else if t0.1 = 3 then
      (readVec t0.2).bind fun a1 =>
        if a1.1.length = 16 then some (.Leave ⟨a1.1⟩) else none
    else if t0.1 = 4 then
      (readVec t0.2).bind fun a1 =>
        if a1.1.length = 16 then some (.Heartbeat ⟨a1.1⟩) else none
    else if t0.1 = 5 then
      (readN 16 t0.2).bind fun a1 =>
        (readU64 a1.2).bind fun a2 =>
          (readU64 a2.2).bind fun a3 => some (.ChunkRequest a1.1 a2.1 a3.1)
    else if t0.1 = 6 then
      (readN 16 t0.2).bind fun a1 =>
        (readU64 a1.2).bind fun a2 =>
          (readU64 a2.2).bind fun a3 =>
            (readN 32 a3.2).bind fun a4 =>
              (readVec a4.2).bind fun a5 => some (.ChunkData a1.1 a2.1 a3.1 a4.1 a5.1)
    else if t0.1 = 7 then
      (readN 16 t0.2).bind fun a1 =>
        (readU64 a1.2).bind fun a2 =>
          (readU64 a2.2).bind fun a3 => some (.Nack a1.1 a2.1 a3.1)
    else none

/-- `wire::MAX_FRAME_LEN`: 16 MiB. -/
def MAX_FRAME_LEN : Nat := 16 * 1024 * 1024

/-- `wire::FrameEncodeError`. -/
inductive FrameEncodeError where
  | Encode
  | TooLarge
deriving DecidableEq, Repr

/-- `wire::FrameDecodeError`. -/
inductive FrameDecodeError where
  | NeedMore
  | TooLarge
  | Decode
deriving DecidableEq, Repr

/-- `wire::encode_frame`: serialize, cast the length to `u32` (a wrapping
`as` cast, hence the `% 2 ^ 32`), reject oversize, and prepend the 4-byte
little-endian length. -/
def encode_frame (msg : Message) : Except FrameEncodeError (List Nat) :=
  let payload := serializeMessage msg
  let len := payload.length % 2 ^ 32
  if MAX_FRAME_LEN < len then .error .TooLarge
  else .ok (u32LE len ++ payload)

/-- `wire::decode_frame`: read the 4-byte length, check bounds, deserialize. -/
def decode_frame (bytes : List Nat) : Except FrameDecodeError (Message × Nat) :=
  if bytes.length < 4 then .error .NeedMore
  else
    let len := leVal (bytes.take 4)
    if MAX_FRAME_LEN < len then .error .TooLarge
    else if bytes.length < 4 + len then .error .NeedMore
    else
      match deserializeMessage ((bytes.drop 4).take len) with
      | some msg => .ok (msg, 4 + len)
      | none => .error .Decode

/-! ## Integrity (`integrity.rs`) -/

/-- `integrity::DEFAULT_MAX_INTEGRITY_FAILURES`. -/
def DEFAULT_MAX_INTEGRITY_FAILURES : Nat := 3

/-- `integrity::hash_chunk`: SHA-256 of the payload. -/
def hash_chunk (payload : List Nat) : List Nat := sha256 payload

/-- `integrity::verify_chunk`: compare the payload's hash with the expected one. -/
def verify_chunk (payload : List Nat) (expected_hash : List Nat) : Bool :=
  hash_chunk payload = expected_hash

/-- `integrity::PeerTrustTracker`: per-peer integrity-failure counts. -/
structure PeerTrustTracker where
  failures : List (DeviceId × Nat)
deriving DecidableEq, Repr

/-- `PeerTrustTracker::new`. -/
def PeerTrustTracker.new : PeerTrustTracker := ⟨[]⟩

/-- `PeerTrustTracker::failure_count`. -/
def PeerTrustTracker.failure_count (t : PeerTrustTracker) (peer_id : DeviceId) : Nat :=
  (lookupA t.failures peer_id).getD 0

/-- `PeerTrustTracker::record_failure`: increment the peer's counter
(`entry(..).or_insert(0) += 1`). -/
def PeerTrustTracker.record_failure (t : PeerTrustTracker) (peer_id : DeviceId) :
    PeerTrustTracker :=
  ⟨upsertA t.failures peer_id (t.failure_count peer_id + 1)⟩

/-- `PeerTrustTracker::is_isolated`: failures at or above the threshold. -/
def PeerTrustTracker.is_isolated (t : PeerTrustTracker) (peer_id : DeviceId)
    (max_failures : Nat) : Bool :=
  max_failures ≤ t.failure_count peer_id

/-! ## Chunk manager (`chunk.rs`) -/

/-- `chunk::DEFAULT_CHUNK_SIZE`: 256 KiB. -/
def DEFAULT_CHUNK_SIZE : Nat := 256 * 1024

/-- `chunk::ChunkId`: transfer id plus half-open byte range. -/
structure ChunkId where
  transfer_id : List Nat
  start : Nat
  end_ : Nat
deriving DecidableEq, Repr

/-- Loop body of `chunk::split_into_chunks`.  `fuel` bounds the iteration
count (any terminating run of the Rust loop makes at most `total_len`
iterations, since `start` strictly increases while below `total_len`).
The `start + size < 2 ^ 64` test models the `u64` addition `start + size`,
which panics on overflow (debug) — modelled as `none`. -/
def splitGo (transfer_id : List Nat) (size total_len : Nat) :
    Nat → Nat → Option (List ChunkId)
  | 0, start => if start < total_len then none else some []
  | fuel + 1, start =>
    if start < total_len then
      if start + size < 2 ^ 64 then
        let e := min (start + size) total_len
        match splitGo transfer_id size total_len fuel e with
        | some rest => some (⟨transfer_id, start, e⟩ :: rest)
        | none => none
      else none
    else some []

/-- `chunk::split_into_chunks`: cut `[0, total_len)` into chunks of
`chunk_size` bytes (`DEFAULT_CHUNK_SIZE` when `chunk_size = 0`); the final
chunk may be shorter.  Returns `none` when the `u64` addition in the loop
overflows (a panic in the Rust code).  The fuel `total_len / size + 2`
dominates the iteration count of every terminating run of the Rust loop
(`start` advances by `size` while below `total_len`, so at most
`⌈total_len / size⌉` iterations occur before the loop exits or overflows). -/
def split_into_chunks (transfer_id : List Nat) (total_len chunk_size : Nat) :
    Option (List ChunkId) :=
  let size := if chunk_size = 0 then DEFAULT_CHUNK_SIZE else chunk_size
  splitGo transfer_id size total_len (total_len / size + 2) 0

/-- `chunk::TransferState`: per-transfer bookkeeping. -/
structure TransferState where
  transfer_id : List Nat
  total_length : Nat
  chunk_ids : List ChunkId
  received : List (ChunkId × List Nat)
  in_flight : List ChunkId
deriving DecidableEq, Repr

/-- `TransferState::new`. -/
def TransferState.new (transfer_id : List Nat) (total_length : Nat)
    (chunk_ids : List ChunkId) : TransferState :=
  ⟨transfer_id, total_length, chunk_ids, [], []⟩

/-- `TransferState::mark_in_flight`. -/
def TransferState.mark_in_flight (s : TransferState) (chunk_id : ChunkId) : TransferState :=
  { s with in_flight := if chunk_id ∈ s.in_flight then s.in_flight else s.in_flight ++ [chunk_id] }

/-- `TransferState::is_complete`: every declared chunk id has a received payload. -/
def TransferState.is_complete (s : TransferState) : Bool :=
  s.chunk_ids.all (fun id => (lookupA s.received id).isSome)

/-- `TransferState::mark_received`: drop from in-flight, store the payload;
the Rust method also reports `is_complete`, which callers recompute here. -/
def TransferState.mark_received (s : TransferState) (chunk_id : ChunkId)
    (payload : List Nat) : TransferState :=
  { s with
    in_flight := s.in_flight.filter (fun c => c ≠ chunk_id)
    received := upsertA s.received chunk_id payload }

/-- `TransferState::mark_failed`: drop from in-flight only. -/
def TransferState.mark_failed (s : TransferState) (chunk_id : ChunkId) : TransferState :=
  { s with in_flight := s.in_flight.filter (fun c => c ≠ chunk_id) }

/-- `TransferState::is_received`. -/
def TransferState.is_received (s : TransferState) (chunk_id : ChunkId) : Bool :=
  (lookupA s.received chunk_id).isSome

/-- `TransferState::reassemble_into_bytes`: concatenate the received payloads
in declared chunk order, skipping (as the Rust `if let` does) any chunk with
no stored payload. -/
def TransferState.reassemble_into_bytes (s : TransferState) : List Nat :=
  (s.chunk_ids.filterMap (fun id => lookupA s.received id)).flatten

/-- `chunk::chunk_request_message`. -/
def chunk_request_message (chunk_id : ChunkId) : Message :=
  .ChunkRequest chunk_id.transfer_id chunk_id.start chunk_id.end_

/-- `chunk::ChunkReceiveResult`. -/
inductive ChunkReceiveResult where
  | Complete (bytes : List Nat)
  | InProgress
  | IntegrityFailed
deriving DecidableEq, Repr

/-- `chunk::on_chunk_data_received`: reject transfer-id mismatch, verify the
hash (removing the chunk from in-flight on failure), otherwise store the
payload and report completion.  Returned with the updated state (the Rust
function mutates `state` in place). -/
def on_chunk_data_received (state : TransferState) (transfer_id : List Nat)
    (start end_ : Nat) (hash payload : List Nat) : ChunkReceiveResult × TransferState :=
  if state.transfer_id ≠ transfer_id then (.IntegrityFailed, state)
  else
    let chunk_id : ChunkId := ⟨transfer_id, start, end_⟩
    if ¬verify_chunk payload hash then (.IntegrityFailed, state.mark_failed chunk_id)
    else
      let s' := state.mark_received chunk_id payload
      if s'.is_complete then (.Complete s'.reassemble_into_bytes, s')
      else (.InProgress, s')

/-! ## Scheduler (`scheduler.rs`) -/

/-- `scheduler::PeerMetrics`. -/
structure PeerMetrics where
  successes : Nat
  failures : Nat
deriving DecidableEq, Repr

/-- `scheduler::DEFAULT_MAX_FAILURES`. -/
def DEFAULT_MAX_FAILURES : Nat := 3

/-- `scheduler::assign_chunks_to_peers`: round-robin; chunk `i` goes to
`peers[i % peers.len()]`; empty peer list gives the empty assignment. -/
def assign_chunks_to_peers (chunk_ids : List ChunkId) (peers : List DeviceId) :
    List (ChunkId × DeviceId) :=
  if h : peers = [] then []
  else
    chunk_ids.enum.map (fun p =>
      (p.2, peers.get ⟨p.1 % peers.length, Nat.mod_lt _ (List.length_pos.mpr h)⟩))

/-- The filter closure of `assign_chunks_with_metrics`: a peer passes when
it has no metrics entry or its failures are below the threshold
(`is_none_or(|m| m.failures < max_failures)`). -/
def metricsPass (metrics : List (DeviceId × PeerMetrics)) (max_failures : Nat)
    (p : DeviceId) : Bool :=
  match lookupA metrics p with
  | none => true
  | some m => m.failures < max_failures

/-- `scheduler::assign_chunks_with_metrics`: drop peers whose recorded
failures reach `max_failures`; if that empties the worker set, fall back to
all peers. -/
def assign_chunks_with_metrics (chunk_ids : List ChunkId) (peers : List DeviceId)
    (metrics : List (DeviceId × PeerMetrics)) (max_failures : Nat) :
    List (ChunkId × DeviceId) :=
  let eligible := peers.filter (metricsPass metrics max_failures)
  let effective := if eligible = [] then peers else eligible
  assign_chunks_to_peers chunk_ids effective

/-- `scheduler::reassign_after_peer_left`: re-deal the departed peer's chunks
round-robin over the remaining peers (or back to the departed peer when none
remain). -/
def reassign_after_peer_left (current_assignment : List (ChunkId × DeviceId))
    (peer_left : DeviceId) (remaining_peers : List DeviceId) : List (ChunkId × DeviceId) :=
  if remaining_peers = [] then
    (current_assignment.filter (fun p => p.2 = peer_left)).map (fun p => (p.1, peer_left))
  else
    let to_reassign := (current_assignment.filter (fun p => p.2 = peer_left)).map Prod.fst
    assign_chunks_to_peers to_reassign remaining_peers

/-! ## Coordinator (`core.rs`)

`PeaPodCore` is modelled with its observable fields.  The keypair is
represented by the only datum the coordinator reads from it, its
`DeviceId`; the fresh random UUID minted by `on_incoming_request` is
passed in explicitly.  The upload-path state (`active_upload`) is carried
by no modelled operation and is omitted.  `tick` iterates over a `HashMap`
in nondeterministic order and is not needed by any claim; it is not
modelled. -/

/-- `core::HEARTBEAT_TIMEOUT_TICKS`. -/
def HEARTBEAT_TIMEOUT_TICKS : Nat := 5

/-- `core::DEFAULT_CHUNK_TIMEOUT_TICKS`. -/
def DEFAULT_CHUNK_TIMEOUT_TICKS : Nat := 30

/-- `core::RequestMetadata`. -/
structure RequestMetadata where
  url : String
  method : String
  content_length : Option Nat
  supports_range : Bool
  is_encrypted_stream : Bool
deriving DecidableEq, Repr

/-- `core::is_eligible`: range support, not an encrypted stream, and a known
positive content length. -/
def is_eligible (metadata : RequestMetadata) : Bool :=
  metadata.supports_range && !metadata.is_encrypted_stream &&
    ((metadata.content_length.map (fun l => decide (0 < l))).getD false)

/-- `core::ActiveTransfer`. -/
structure ActiveTransfer where
  state : TransferState
  assignment : List (ChunkId × DeviceId)
deriving DecidableEq, Repr

/-- `core::Action`. -/
inductive Action where
  | Accelerate (transfer_id : List Nat) (total_length : Nat)
      (assignment : List (ChunkId × DeviceId))
  | Fallback
deriving DecidableEq, Repr

/-- `core::ChunkError`. -/
inductive ChunkError where
  | UnknownTransfer
  | IntegrityFailed
deriving DecidableEq, Repr

/-- `core::MessageError`. -/
inductive MessageError where
  | DecodeError
  | UnexpectedMessage
deriving DecidableEq, Repr

/-- `core::OutboundAction`. -/
inductive OutboundAction where
  | SendMessage (peer : DeviceId) (bytes : List Nat)
  | TransferComplete (transfer_id : List Nat) (bytes : List Nat)
  | FetchChunk (chunk_id : ChunkId)
deriving DecidableEq, Repr

/-- `core::PeaPodCore`: the coordinator state. -/
structure PeaPodCore where
  self_id : DeviceId
  peers : List DeviceId
  peer_last_tick : List (DeviceId × Nat)
  tick_count : Nat
  active_transfer : Option ActiveTransfer
  chunk_request_times : List (ChunkId × Nat)
deriving DecidableEq, Repr

/-- `PeaPodCore::with_keypair` (the keypair reduced to its device id). -/
def PeaPodCore.with_keypair (self_id : DeviceId) : PeaPodCore :=
  ⟨self_id, [], [], 0, none, []⟩

/-- `PeaPodCore::on_incoming_request`.  The URL argument is ignored by the
Rust code (`_url`).  `total_length` is `end − start` saturating at 0, plus
1 saturating at `u64::MAX`.  `fresh_tid` is the UUID v4 the Rust code mints.
Returns `none` when `split_into_chunks` overflows (a panic in Rust). -/
def PeaPodCore.on_incoming_request (st : PeaPodCore) (url : String)
    (range : Option (Nat × Nat)) (fresh_tid : List Nat) : Option (Action × PeaPodCore) :=
  let _ := url
  let total_length := match range with
    | some (s, e) => min ((e - s) + 1) (2 ^ 64 - 1)
    | none => 0
  if total_length = 0 then some (.Fallback, st)
  else if st.peers = [] then some (.Fallback, st)
  else
    match split_into_chunks fresh_tid total_length DEFAULT_CHUNK_SIZE with
    | none => none
    | some chunk_ids =>
      let workers := st.self_id :: st.peers
      let assignment := assign_chunks_to_peers chunk_ids workers
      let state := TransferState.new fresh_tid total_length chunk_ids
      some (.Accelerate fresh_tid total_length assignment,
        { st with active_transfer := some ⟨state, assignment⟩ })

/-- `PeaPodCore::on_incoming_request_with_metadata`: check eligibility, then
derive the range `(0, content_length − 1)` and delegate. -/
def PeaPodCore.on_incoming_request_with_metadata (st : PeaPodCore)
    (metadata : RequestMetadata) (fresh_tid : List Nat) : Option (Action × PeaPodCore) :=
  if ¬is_eligible metadata then some (.Fallback, st)
  else
    let range := metadata.content_length.map (fun l => (0, l - 1))
    st.on_incoming_request metadata.url range fresh_tid

/-- `PeaPodCore::mark_chunk_requested`. -/
def PeaPodCore.mark_chunk_requested (st : PeaPodCore) (chunk_id : ChunkId) : PeaPodCore :=
  { st with chunk_request_times := upsertA st.chunk_request_times chunk_id st.tick_count }

/-- `PeaPodCore::on_chunk_received`: clear the request-time entry, then
delegate to the chunk manager when the transfer id matches the active
transfer; `Complete` clears the active transfer and yields the bytes. -/
def PeaPodCore.on_chunk_received (st : PeaPodCore) (transfer_id : List Nat)
    (start end_ : Nat) (hash payload : List Nat) :
    Except ChunkError (Option (List Nat)) × PeaPodCore :=
  let chunk_id : ChunkId := ⟨transfer_id, start, end_⟩
  let st1 := { st with chunk_request_times := eraseA st.chunk_request_times chunk_id }
  match st1.active_transfer with
  | some a =>
    if a.state.transfer_id = transfer_id then
      match on_chunk_data_received a.state transfer_id start end_ hash payload with
      | (.Complete bytes, _) => (.ok (some bytes), { st1 with active_transfer := none })
      | (.InProgress, s') =>
          (.ok none, { st1 with active_transfer := some { a with state := s' } })
      | (.IntegrityFailed, s') =>
          (.error .IntegrityFailed, { st1 with active_transfer := some { a with state := s' } })
    else (.error .UnknownTransfer, st1)
  | none => (.error .UnknownTransfer, st1)

/-- `PeaPodCore::on_peer_joined` (the public key is unused by the Rust body
beyond being received). -/
def PeaPodCore.on_peer_joined (st : PeaPodCore) (peer_id : DeviceId)
    (public_key : PublicKey) : PeaPodCore :=
  let _ := public_key
  { st with
    peers := if peer_id ∈ st.peers then st.peers else st.peers ++ [peer_id]
    peer_last_tick := upsertA st.peer_last_tick peer_id st.tick_count }

/-- `PeaPodCore::redistribute_peer_chunks`: re-deal the departed peer's
chunks over `[self] ++ peers`, retaining the rest of the assignment and
emitting a `SendMessage` with an encoded `ChunkRequest` per new assignment. -/
def PeaPodCore.redistribute_peer_chunks (st : PeaPodCore) (peer_left : DeviceId) :
    List OutboundAction × PeaPodCore :=
  match st.active_transfer with
  | none => ([], st)
  | some active =>
    let remaining := st.self_id :: st.peers
    let new_assignments := reassign_after_peer_left active.assignment peer_left remaining
    let base := active.assignment.filter (fun p => p.2 ≠ peer_left)
    let actions := new_assignments.filterMap (fun p =>
      match encode_frame (chunk_request_message p.1) with
      | .ok bytes => some (.SendMessage p.2 bytes)
      | .error _ => none)
    (actions,
      { st with active_transfer := some { active with assignment := base ++ new_assignments } })

/-- `PeaPodCore::on_peer_left`: drop the peer, then redistribute its chunks. -/
def PeaPodCore.on_peer_left (st : PeaPodCore) (peer_id : DeviceId) :
    List OutboundAction × PeaPodCore :=
  let st1 := { st with
    peers := st.peers.filter (fun p => p ≠ peer_id)
    peer_last_tick := eraseA st.peer_last_tick peer_id }
  st1.redistribute_peer_chunks peer_id

/-- `PeaPodCore::on_heartbeat_received`. -/
def PeaPodCore.on_heartbeat_received (st : PeaPodCore) (peer_id : DeviceId) : PeaPodCore :=
  { st with peer_last_tick := upsertA st.peer_last_tick peer_id st.tick_count }

/-- `PeaPodCore::on_message_received`: decode one frame and dispatch.
`Beacon` and `DiscoveryResponse` fall into the Rust wildcard arm and are
rejected with `UnexpectedMessage`.  On a `ChunkData` whose receipt fails,
the error is swallowed and the action list is empty. -/
def PeaPodCore.on_message_received (st : PeaPodCore) (peer_id : DeviceId)
    (bytes : List Nat) : Except MessageError (List OutboundAction) × PeaPodCore :=
  match decode_frame bytes with
  | .error _ => (.error .DecodeError, st)
  | .ok (msg, _consumed) =>
    match msg with
    | .Heartbeat device_id => (.ok [], st.on_heartbeat_received device_id)
    | .Join device_id =>
      let placeholder := PublicKey.from_bytes (device_id.bytes ++ List.replicate 16 0)
      (.ok [], st.on_peer_joined device_id placeholder)
    | .Leave device_id =>
      let (actions, st') := st.on_peer_left device_id
      (.ok actions, st')
    | .ChunkData transfer_id start end_ hash payload =>
      match st.on_chunk_received transfer_id start end_ hash payload with
      | (.ok (some bytes), st') => (.ok [.TransferComplete transfer_id bytes], st')
      | (.ok none, st') => (.ok [], st')
      | (.error _, st') => (.ok [], st')
    | .ChunkRequest transfer_id start end_ =>
      (.ok [.FetchChunk ⟨transfer_id, start, end_⟩], st)
    | .Nack transfer_id start end_ =>
      let chunk_id : ChunkId := ⟨transfer_id, start, end_⟩
      match st.active_transfer with
      | some active =>
        if active.state.transfer_id = transfer_id then
          let remaining := st.self_id :: st.peers.filter (fun p => p ≠ peer_id)
          if h : remaining = [] then (.ok [], st)
          else
            let new_peer := remaining.head (by simp [h])
            let assignment' := active.assignment.filter (fun p => p.1 ≠ chunk_id) ++
              [(chunk_id, new_peer)]
            let st' := { st with active_transfer := some { active with assignment := assignment' } }
            match encode_frame (chunk_request_message chunk_id) with
            | .ok out => (.ok [.SendMessage new_peer out], st')
            | .error _ => (.ok [], st')
          else (.ok [], st)
      | none => (.ok [], st)
    | .Beacon _ _ _ _ => (.error .UnexpectedMessage, st)
    | .DiscoveryResponse _ _ _ _ => (.error .UnexpectedMessage, st)

/-- `PeaPodCore::current_assignment`. -/
def PeaPodCore.current_assignment (st : PeaPodCore) : Option (List (ChunkId × DeviceId)) :=
  st.active_transfer.map (fun a => a.assignment)

/-! ## Shared helper lemmas and concrete fixtures -/

instance {ε α : Type} [DecidableEq ε] [DecidableEq α] : DecidableEq (Except ε α)
  | .ok a, .ok b => if h : a = b then .isTrue (by rw [h]) else .isFalse (by simp [h])
  | .ok _, .error _ => .isFalse (by simp)
  | .error _, .ok _ => .isFalse (by simp)
  | .error a, .error b => if h : a = b then .isTrue (by rw [h]) else .isFalse (by simp [h])

/-- A payload always verifies against its own hash. -/
theorem verify_chunk_self (p : List Nat) : verify_chunk p (hash_chunk p) = true := by
  simp [verify_chunk]

/-- Filtering out an element absent from a list leaves it unchanged. -/
theorem filter_ne_of_not_mem {α : Type} [DecidableEq α] (l : List α) (c : α) (h : c ∉ l) :
    l.filter (fun x => x ≠ c) = l := by
  induction l with
  | nil => rfl
  | cons hd t ih =>
    have hne : hd ≠ c := fun e => h (e ▸ List.mem_cons_self hd t)
    have ht : c ∉ t := fun e => h (List.mem_cons_of_mem hd e)
    rw [List.filter_cons, if_pos (by simp [hne]), ih ht]

/-- Every peer appearing in a round-robin assignment comes from the worker list. -/
theorem assign_chunks_to_peers_mem (chunk_ids : List ChunkId) (peers : List DeviceId)
    (a : ChunkId × DeviceId) (h : a ∈ assign_chunks_to_peers chunk_ids peers) :
    a.2 ∈ peers := by
  unfold assign_chunks_to_peers at h
  by_cases hp : peers = []
  · simp [hp] at h
  · simp only [dif_neg hp, List.mem_map] at h
    obtain ⟨p, _, rfl⟩ := h
    exact List.get_mem peers _ _

/-- Fixture: the local device id. -/
def selfId1 : DeviceId := ⟨List.replicate 16 1⟩

/-- Fixture: a peer device id. -/
def peerId1 : DeviceId := ⟨List.replicate 16 2⟩

/-- Fixture: a peer public key. -/
def pk1 : PublicKey := ⟨List.replicate 32 9⟩

/-- Fixture: a transfer id. -/
def tidA : List Nat := List.replicate 16 7

/-- Fixture: a second transfer id. -/
def tidB : List Nat := List.replicate 16 8

/-- Fixture: a coordinator with one known peer. -/
def core0 : PeaPodCore := (PeaPodCore.with_keypair selfId1).on_peer_joined peerId1 pk1

/-- Fixture: `core0` after accepting a 262145-byte request split into two
chunks, the second assigned to `peerId1`. -/
def core1 : PeaPodCore :=
  ((core0.on_incoming_request "http://x/f" (some (0, 262144)) tidA).getD (.Fallback, core0)).2

/-! ## C1: `on_incoming_request` fallback conditions

The claim says the result is `Fallback` iff the URL scheme is not
`http`/`https`, or the range is absent or degenerate, or the peer set is
empty — and in particular that `"ftp://x/f"` yields `Fallback` even with
peers present.  The code never inspects the URL (the parameter is `_url`),
and a degenerate range `(s, e)` with `e ≤ s` still yields
`total_length = e ⊖ s + 1 ≥ 1`, so neither condition causes `Fallback`:
the result is `Fallback` exactly when the range is absent or the peer set
is empty. -/

/-- C1 counterexample: with a peer present and range `(0, 99)`, the URL
`"ftp://x/f"` is accelerated (one chunk, assigned to self), not sent to
`Fallback` as the claim requires. -/
theorem C1_counterexample :
    (core0.on_incoming_request "ftp://x/f" (some (0, 99)) tidA).map Prod.fst =
      some (.Accelerate tidA 100 [(⟨tidA, 0, 100⟩, selfId1)]) := by
  decide

/-- C1 (amended): `on_incoming_request` returns `Fallback` — leaving the
state untouched — if and only if the range argument is absent or the peer
set is empty; the URL plays no role. -/
theorem C1_fallback_iff (st : PeaPodCore) (url : String) (range : Option (Nat × Nat))
    (fresh_tid : List Nat) :
    st.on_incoming_request url range fresh_tid = some (.Fallback, st) ↔
      range = none ∨ st.peers = [] := by
  cases range with
  | none => simp [PeaPodCore.on_incoming_request]
  | some p =>
    obtain ⟨s, e⟩ := p
    have htot : ¬(min ((e - s) + 1) (2 ^ 64 - 1) = 0) := by
      have h1 : 1 ≤ (e - s) + 1 := by omega
      have h2 : (1 : Nat) ≤ 2 ^ 64 - 1 := by norm_num
      have := le_min h1 h2
      omega
    by_cases hp : st.peers = []
    · simp [PeaPodCore.on_incoming_request, htot, hp]
    · simp only [PeaPodCore.on_incoming_request, htot, if_false, hp, reduceCtorEq]
      constructor
      · intro h
        exfalso
        cases hsplit : split_into_chunks fresh_tid (min ((e - s) + 1) (2 ^ 64 - 1))
            DEFAULT_CHUNK_SIZE with
        | none => rw [hsplit] at h; simp at h
        | some cs => rw [hsplit] at h; simp at h
      · intro h
        simp [hp] at h

/-- C1 witness: an absent range yields `Fallback` on the fixture core. -/
theorem C1_witness :
    core0.on_incoming_request "http://x/f" none tidA = some (.Fallback, core0) :=
  (C1_fallback_iff core0 "http://x/f" none tidA).mpr (Or.inl rfl)

/-! ## C10: request eligibility -/

/-- C10: `is_eligible` holds exactly for range-capable, non-encrypted
requests with a known positive content length, and
`on_incoming_request_with_metadata` falls back whenever `is_eligible` is
false (leaving the state untouched). -/
theorem C10_eligibility (m : RequestMetadata) (st : PeaPodCore) (fresh_tid : List Nat) :
    (is_eligible m = true ↔
      m.supports_range = true ∧ m.is_encrypted_stream = false ∧
        ∃ l, m.content_length = some l ∧ 0 < l) ∧
    (is_eligible m = false →
      st.on_incoming_request_with_metadata m fresh_tid = some (.Fallback, st)) := by
  constructor
  · cases hcl : m.content_length with
    | none => simp [is_eligible, hcl]
    | some l =>
      simp [is_eligible, hcl]
      tauto
  · intro h
    simp [PeaPodCore.on_incoming_request_with_metadata, h]

/-- C10 witness: a request without range support is rejected. -/
theorem C10_witness :
    is_eligible ⟨"http://x/f", "GET", some 1000, false, false⟩ = false ∧
    core0.on_incoming_request_with_metadata ⟨"http://x/f", "GET", some 1000, false, false⟩
        tidA = some (.Fallback, core0) :=
  ⟨by decide, (C10_eligibility ⟨"http://x/f", "GET", some 1000, false, false⟩ core0 tidA).2
    (by decide)⟩

/-! ## C5: Beacon handling

The claim says a decoded `Beacon` succeeds, updates the peer table and
produces a `DiscoveryResponse` to the sender.  In the code `Beacon` (and
`DiscoveryResponse`) land in the wildcard arm of `on_message_received`,
which returns `Err(MessageError::UnexpectedMessage)` and touches nothing. -/

/-- Fixture: an encoded Beacon frame from `peerId1`. -/
def frameC5 : List Nat :=
  match encode_frame (.Beacon 1 peerId1 pk1 45678) with
  | .ok f => f
  | .error _ => []

/-- C5 counterexample: the fixture frame decodes to a `Beacon`, yet
`on_message_received` rejects it with `UnexpectedMessage`, leaves the
coordinator untouched (no peer-table update) and emits no action — in
particular no `DiscoveryResponse`. -/
theorem C5_counterexample :
    decode_frame frameC5 = .ok (.Beacon 1 peerId1 pk1 45678, frameC5.length) ∧
    core0.on_message_received peerId1 frameC5 = (.error .UnexpectedMessage, core0) := by
  constructor
  · decide
  · decide

/-- C5 (amended): any frame decoding to a `Beacon` is answered with
`Err(UnexpectedMessage)`; the state is unchanged and no outbound action —
in particular no `DiscoveryResponse` — is produced. -/
theorem C5_beacon_rejected (st : PeaPodCore) (peer : DeviceId) (bytes : List Nat)
    (v : Nat) (d : DeviceId) (pk : PublicKey) (port n : Nat)
    (hdec : decode_frame bytes = .ok (.Beacon v d pk port, n)) :
    st.on_message_received peer bytes = (.error .UnexpectedMessage, st) := by
  simp [PeaPodCore.on_message_received, hdec]

/-- C5 witness: the amended theorem applied to the fixture frame. -/
theorem C5_witness :
    core1.on_message_received peerId1 frameC5 = (.error .UnexpectedMessage, core1) :=
  C5_beacon_rejected core1 peerId1 frameC5 1 peerId1 pk1 45678 frameC5.length (by decide)

/-! ## C4: Nack on integrity failure

The claim says a decoded `ChunkData` whose receipt fails the integrity
check causes a `Nack` to the sender.  The code's `ChunkData` arm maps
`Err(_)` to `Ok(vec![])`: the error is swallowed and no message at all is
sent. -/

/-- Fixture: an encoded ChunkData frame for the second chunk of `core1`'s
active transfer, with an all-zero hash that does not match the payload. -/
def frameC4 : List Nat :=
  match encode_frame (.ChunkData tidA 262144 262145 (List.replicate 32 0) [5]) with
  | .ok f => f
  | .error _ => []

/-- C4 counterexample: the fixture frame decodes to a `ChunkData`, its
receipt returns `IntegrityFailed`, yet `on_message_received` returns an
empty action list — no `Nack` (indeed no action at all) is sent to the
peer. -/
theorem C4_counterexample :
    decode_frame frameC4 =
      .ok (.ChunkData tidA 262144 262145 (List.replicate 32 0) [5], frameC4.length) ∧
    core1.on_chunk_received tidA 262144 262145 (List.replicate 32 0) [5] =
      (.error .IntegrityFailed, core1) ∧
    core1.on_message_received peerId1 frameC4 = (.ok [], core1) := by
  refine ⟨by decide, by decide, by decide⟩

/-- C4 (amended): when a frame decodes to `ChunkData` and the receipt
fails (for example with `IntegrityFailed`), `on_message_received` returns
`Ok` with an empty action list: the failure is swallowed and no `Nack` is
emitted. -/
theorem C4_integrity_failure_silent (st : PeaPodCore) (peer : DeviceId) (bytes : List Nat)
    (t : List Nat) (s e : Nat) (h p : List Nat) (n : Nat) (st' : PeaPodCore)
    (hdec : decode_frame bytes = .ok (.ChunkData t s e h p, n))
    (hrecv : st.on_chunk_received t s e h p = (.error .IntegrityFailed, st')) :
    st.on_message_received peer bytes = (.ok [], st') := by
  simp [PeaPodCore.on_message_received, hdec, hrecv]

/-- C4 witness: the amended theorem applied to the fixture frame. -/
theorem C4_witness :
    core1.on_message_received selfId1 frameC4 = (.ok [], core1) :=
  C4_integrity_failure_silent core1 selfId1 frameC4 tidA 262144 262145
    (List.replicate 32 0) [5] frameC4.length core1 (by decide) (by decide)

/-! ## C9: duplicate chunk delivery is a no-op

After a first successful receipt the payload is stored under its
`ChunkId` and the chunk is out of in-flight.  A second delivery with the
same verifying hash and payload re-inserts the identical entry and
re-removes an absent element, leaving the state unchanged, and returns
`InProgress` unless the transfer is complete after the receipt. -/

/-- C9: re-delivering an already-stored chunk with a verifying hash and the
same payload leaves the `TransferState` unchanged and returns `InProgress`
— or `Complete` exactly when the transfer is complete after (equivalently,
before) this receipt. -/
theorem C9_duplicate_noop (s : TransferState) (c : ChunkId) (p h : List Nat)
    (htid : s.transfer_id = c.transfer_id)
    (hstored : lookupA s.received c = some p)
    (hver : verify_chunk p h = true)
    (hflight : c ∉ s.in_flight) :
    on_chunk_data_received s c.transfer_id c.start c.end_ h p =
      if s.is_complete then (.Complete s.reassemble_into_bytes, s) else (.InProgress, s) := by
  have hmk : s.mark_received ⟨c.transfer_id, c.start, c.end_⟩ p = s := by
    have hc : (⟨c.transfer_id, c.start, c.end_⟩ : ChunkId) = c := rfl
    rw [hc]
    unfold TransferState.mark_received
    rw [filter_ne_of_not_mem _ _ hflight, upsertA_eq_self _ _ _ hstored]
  unfold on_chunk_data_received
  rw [if_neg (by simp [htid]), if_neg (by simp [hver]), hmk]

/-- C9 witness: a two-chunk transfer with the first chunk already stored;
re-delivering it with its own hash returns `InProgress` and the state is
bitwise unchanged. -/
theorem C9_witness :
    lookupA (TransferState.mk tidA 2 [⟨tidA, 0, 1⟩, ⟨tidA, 1, 2⟩] [(⟨tidA, 0, 1⟩, [7])]
        []).received ⟨tidA, 0, 1⟩ = some [7] ∧
    verify_chunk [7] (hash_chunk [7]) = true ∧
    on_chunk_data_received
        (TransferState.mk tidA 2 [⟨tidA, 0, 1⟩, ⟨tidA, 1, 2⟩] [(⟨tidA, 0, 1⟩, [7])] [])
        tidA 0 1 (hash_chunk [7]) [7] =
      (.InProgress,
        TransferState.mk tidA 2 [⟨tidA, 0, 1⟩, ⟨tidA, 1, 2⟩] [(⟨tidA, 0, 1⟩, [7])] []) := by
  refine ⟨by decide, verify_chunk_self [7], ?_⟩
  have h := C9_duplicate_noop
    (TransferState.mk tidA 2 [⟨tidA, 0, 1⟩, ⟨tidA, 1, 2⟩] [(⟨tidA, 0, 1⟩, [7])] [])
    ⟨tidA, 0, 1⟩ [7] (hash_chunk [7]) rfl (by decide) (verify_chunk_self [7]) (by decide)
  rw [if_neg (by decide)] at h
  exact h

/-! ## C6: received and in-flight stay disjoint

The claim quantifies over arbitrary operation sequences.  `mark_in_flight`
inserts into `in_flight` without consulting `received`, so marking an
already-received chunk in-flight breaks the disjointness.  The invariant
does hold along every sequence in which `mark_in_flight` is only applied
to chunks not currently received (`mark_received`, `mark_failed` and
`on_chunk_data_received` preserve it unconditionally; the coordinator
itself never calls `mark_in_flight`). -/

/-- A `TransferState` operation, as listed in the claim. -/
inductive TOp where
  | markInFlight (c : ChunkId)
  | markReceived (c : ChunkId) (payload : List Nat)
  | markFailed (c : ChunkId)
  | chunkData (transfer_id : List Nat) (start end_ : Nat) (hash payload : List Nat)
deriving DecidableEq, Repr

/-- Apply one operation to a `TransferState` (keeping only the state for
`on_chunk_data_received`). -/
def applyTOp (s : TransferState) : TOp → TransferState
  | .markInFlight c => s.mark_in_flight c
  | .markReceived c p => s.mark_received c p
  | .markFailed c => s.mark_failed c
  | .chunkData t a b h p => (on_chunk_data_received s t a b h p).2

/-- Run a sequence of operations. -/
def runTOps (s : TransferState) : List TOp → TransferState
  | [] => s
  | op :: ops => runTOps (applyTOp s op) ops

/-- The claimed invariant: no in-flight chunk has a stored payload. -/
def DisjointRI (s : TransferState) : Prop :=
  ∀ c ∈ s.in_flight, lookupA s.received c = none

instance (s : TransferState) : Decidable (DisjointRI s) :=
  inferInstanceAs (Decidable (∀ c ∈ s.in_flight, lookupA s.received c = none))

/-- Side condition under which an operation keeps the invariant:
`mark_in_flight` must only hit chunks that are not received. -/
def TOpOk (s : TransferState) : TOp → Prop
  | .markInFlight c => lookupA s.received c = none
  | _ => True

instance (s : TransferState) : (op : TOp) → Decidable (TOpOk s op)
  | .markInFlight c => inferInstanceAs (Decidable (lookupA s.received c = none))
  | .markReceived _ _ => inferInstanceAs (Decidable True)
  | .markFailed _ => inferInstanceAs (Decidable True)
  | .chunkData _ _ _ _ _ => inferInstanceAs (Decidable True)

/-- A sequence is valid when each step satisfies `TOpOk` in the state it
is applied to. -/
def ValidTOps (s : TransferState) : List TOp → Prop
  | [] => True
  | op :: ops => TOpOk s op ∧ ValidTOps (applyTOp s op) ops

instance : (s : TransferState) → (ops : List TOp) → Decidable (ValidTOps s ops)
  | _, [] => inferInstanceAs (Decidable True)
  | s, op :: ops =>
    have := instDecidableValidTOps (applyTOp s op) ops
    inferInstanceAs (Decidable (TOpOk s op ∧ ValidTOps (applyTOp s op) ops))

/-- C6 counterexample: mark a chunk received, then mark the same chunk
in-flight — the chunk is now in both sets, so
`received ∩ in_flight = ∅` fails after a `mark_in_flight` operation. -/
theorem C6_counterexample :
    ¬DisjointRI (runTOps (TransferState.new tidA 30 [⟨tidA, 0, 30⟩])
      [.markReceived ⟨tidA, 0, 30⟩ [1], .markInFlight ⟨tidA, 0, 30⟩]) := by
  decide

/-- `mark_received` preserves the invariant unconditionally. -/
theorem mark_received_preserves (s : TransferState) (c : ChunkId) (p : List Nat)
    (hInv : DisjointRI s) : DisjointRI (s.mark_received c p) := by
  intro c' hc'
  simp only [TransferState.mark_received, List.mem_filter, decide_eq_true_eq] at hc' ⊢
  obtain ⟨hin, hne⟩ := hc'
  rw [lookupA_upsertA_ne _ _ _ _ (fun e => hne e.symm)]
  exact hInv c' hin

/-- `mark_failed` preserves the invariant unconditionally. -/
theorem mark_failed_preserves (s : TransferState) (c : ChunkId)
    (hInv : DisjointRI s) : DisjointRI (s.mark_failed c) := by
  intro c' hc'
  simp only [TransferState.mark_failed, List.mem_filter] at hc' ⊢
  exact hInv c' hc'.1

/-- Each single operation preserves the invariant under its side condition. -/
theorem applyTOp_preserves (s : TransferState) (op : TOp)
    (hInv : DisjointRI s) (hok : TOpOk s op) : DisjointRI (applyTOp s op) := by
  cases op with
  | markInFlight c =>
    intro c' hc'
    simp only [applyTOp, TransferState.mark_in_flight] at hc' ⊢
    by_cases hm : c ∈ s.in_flight
    · simp only [if_pos hm] at hc'
      exact hInv c' hc'
    · simp only [if_neg hm, List.mem_append, List.mem_singleton] at hc'
      rcases hc' with h | h
      · exact hInv c' h
      · exact h ▸ hok
  | markReceived c p =>
    exact mark_received_preserves s c p hInv
  | markFailed c =>
    exact mark_failed_preserves s c hInv
  | chunkData t a b h p =>
    intro c' hc'
    simp only [applyTOp, on_chunk_data_received] at hc' ⊢
    by_cases htid : s.transfer_id ≠ t
    · rw [if_pos htid] at hc' ⊢
      exact hInv c' hc'
    · rw [if_neg htid] at hc' ⊢
      by_cases hver : verify_chunk p h
      · rw [if_neg (by simp [hver])] at hc' ⊢
        by_cases hcomp : ((s.mark_received ⟨t, a, b⟩ p).is_complete : Prop)
        · rw [if_pos hcomp] at hc' ⊢
          exact mark_received_preserves s ⟨t, a, b⟩ p hInv c' hc'
        · rw [if_neg hcomp] at hc' ⊢
          exact mark_received_preserves s ⟨t, a, b⟩ p hInv c' hc'
      · rw [if_pos (by simp [hver])] at hc' ⊢
        exact mark_failed_preserves s ⟨t, a, b⟩ hInv c' hc'

/-- C6 (amended): along every operation sequence in which `mark_in_flight`
is only applied to chunks without a stored payload, the received and
in-flight sets stay disjoint after every step.  (The unrestricted claim is
refuted by `C6_counterexample`.) -/
theorem C6_disjoint_invariant (s : TransferState) (ops : List TOp)
    (hInv : DisjointRI s) (hvalid : ValidTOps s ops) : DisjointRI (runTOps s ops) := by
  induction ops generalizing s with
  | nil => exact hInv
  | cons op ops ih =>
    obtain ⟨hok, hrest⟩ := hvalid
    exact ih (applyTOp s op) (applyTOp_preserves s op hInv hok) hrest

/-- C6 witness: a valid sequence (receive, fail, deliver a verified chunk,
mark a fresh chunk in-flight) preserves disjointness. -/
theorem C6_witness :
    DisjointRI (TransferState.new tidA 30 [⟨tidA, 0, 15⟩, ⟨tidA, 15, 30⟩]) ∧
    ValidTOps (TransferState.new tidA 30 [⟨tidA, 0, 15⟩, ⟨tidA, 15, 30⟩])
      [.markInFlight ⟨tidA, 0, 15⟩, .markReceived ⟨tidA, 0, 15⟩ [1],
       .markFailed ⟨tidA, 15, 30⟩, .markInFlight ⟨tidA, 15, 30⟩] ∧
    DisjointRI (runTOps (TransferState.new tidA 30 [⟨tidA, 0, 15⟩, ⟨tidA, 15, 30⟩])
      [.markInFlight ⟨tidA, 0, 15⟩, .markReceived ⟨tidA, 0, 15⟩ [1],
       .markFailed ⟨tidA, 15, 30⟩, .markInFlight ⟨tidA, 15, 30⟩]) :=
  ⟨by decide, by decide,
    C6_disjoint_invariant _ _ (by decide) (by decide)⟩

/-! ## C3: integrity failures and peer isolation

The claim says the Coordinator records a failure against the peer on each
`IntegrityFailed` receipt and excludes the peer from scheduling after 3
such failures.  `PeaPodCore` has no failure counter at all:
`on_chunk_received` returns the error and changes nothing else, and
`on_incoming_request` schedules with the metrics-free
`assign_chunks_to_peers`.  Failure counting and exclusion exist only in
the standalone helpers `PeerTrustTracker` (`integrity.rs`) and
`assign_chunks_with_metrics` (`scheduler.rs`), which no coordinator path
calls. -/

/-- C3 counterexample: `core1` has a two-chunk transfer whose second chunk
is assigned to `peerId1`.  A receipt for that chunk with a non-matching
hash returns `IntegrityFailed` and leaves the coordinator state *exactly*
unchanged (so three repetitions of this call each return `IntegrityFailed`
against the same unchanged state — three failures, nothing recorded), and
the next `on_incoming_request` still assigns a chunk to `peerId1`. -/
theorem C3_counterexample :
    core1.on_chunk_received tidA 262144 262145 (List.replicate 32 0) [5] =
      (.error .IntegrityFailed, core1) ∧
    (core1.on_incoming_request "http://x/f" (some (0, 262144)) tidB).map Prod.fst =
      some (.Accelerate tidB 262145
        [(⟨tidB, 0, 262144⟩, selfId1), (⟨tidB, 262144, 262145⟩, peerId1)]) := by
  refine ⟨by decide, by decide⟩

/-- C3 (amended): isolation semantics live in the standalone helpers.
`PeerTrustTracker` reports a peer isolated after exactly 3 recorded
failures (not after 2), and `assign_chunks_with_metrics` never assigns a
chunk to a peer whose recorded failures reach the threshold, as long as
some eligible peer remains.  The coordinator's own receipt path records
nothing (its state is returned unchanged on `IntegrityFailed`, as
`C3_counterexample` shows). -/
theorem C3_isolation_helpers :
    (∀ p : DeviceId,
      ((PeerTrustTracker.new.record_failure p).record_failure p).is_isolated p
          DEFAULT_MAX_INTEGRITY_FAILURES = false ∧
      (((PeerTrustTracker.new.record_failure p).record_failure p).record_failure p).is_isolated
          p DEFAULT_MAX_INTEGRITY_FAILURES = true) ∧
    (∀ (chunks : List ChunkId) (peers : List DeviceId)
        (metrics : List (DeviceId × PeerMetrics)) (max_failures : Nat)
        (bad : DeviceId) (m : PeerMetrics),
      lookupA metrics bad = some m → max_failures ≤ m.failures →
      (∃ q ∈ peers, metricsPass metrics max_failures q = true) →
      ∀ a ∈ assign_chunks_with_metrics chunks peers metrics max_failures, a.2 ≠ bad) := by
  constructor
  · intro p
    simp [PeerTrustTracker.new, PeerTrustTracker.record_failure, PeerTrustTracker.is_isolated,
      PeerTrustTracker.failure_count, lookupA, upsertA, DEFAULT_MAX_INTEGRITY_FAILURES]
  · intro chunks peers metrics max_failures bad m hlk hge hq a ha hbad
    have hbadfail : metricsPass metrics max_failures bad = false := by
      simp [metricsPass, hlk]
      omega
    obtain ⟨q, hqmem, hqpass⟩ := hq
    have hne : peers.filter (metricsPass metrics max_failures) ≠ [] := by
      intro hnil
      have : q ∈ peers.filter (metricsPass metrics max_failures) :=
        List.mem_filter.mpr ⟨hqmem, hqpass⟩
      simp [hnil] at this
    simp only [assign_chunks_with_metrics, if_neg hne] at ha
    have := assign_chunks_to_peers_mem _ _ _ ha
    have hpass := (List.mem_filter.mp this).2
    rw [hbad, hbadfail] at hpass
    exact absurd hpass (by simp)

/-- C3 witness: with `peerId1` at 3 recorded failures and `selfId1`
eligible, no chunk of a two-chunk assignment goes to `peerId1`; the
two-failure tracker is not yet isolated and the three-failure tracker is. -/
theorem C3_witness :
    ((PeerTrustTracker.new.record_failure peerId1).record_failure peerId1).is_isolated peerId1
        DEFAULT_MAX_INTEGRITY_FAILURES = false ∧
    (((PeerTrustTracker.new.record_failure peerId1).record_failure peerId1).record_failure
        peerId1).is_isolated peerId1 DEFAULT_MAX_INTEGRITY_FAILURES = true ∧
    ∀ a ∈ assign_chunks_with_metrics [⟨tidA, 0, 15⟩, ⟨tidA, 15, 30⟩] [selfId1, peerId1]
        [(peerId1, ⟨0, 3⟩)] DEFAULT_MAX_FAILURES, a.2 ≠ peerId1 :=
  ⟨(C3_isolation_helpers.1 peerId1).1, (C3_isolation_helpers.1 peerId1).2,
    C3_isolation_helpers.2 [⟨tidA, 0, 15⟩, ⟨tidA, 15, 30⟩] [selfId1, peerId1]
      [(peerId1, ⟨0, 3⟩)] DEFAULT_MAX_FAILURES peerId1 ⟨0, 3⟩ (by decide) (by decide)
      ⟨selfId1, by decide, by decide⟩⟩

/-! ## C2: completion returns the ordered reassembly

On the completing receipt the code does return the concatenation of the
stored payloads in declared chunk order — but nothing ever checks that a
stored payload is as long as its chunk's range.  Any payload verifies
against its own SHA-256, so a short (even empty) payload with a matching
hash is stored, and the reassembled bytes can be shorter than
`total_length`. -/

/-- C2 counterexample: a one-chunk transfer over `[0, 30)` receives the
empty payload with the (matching) hash of the empty byte string; the
receipt completes and returns `Complete([])` — 0 bytes, not the transfer's
`total_length` of 30. -/
theorem C2_counterexample :
    (on_chunk_data_received (TransferState.new tidA 30 [⟨tidA, 0, 30⟩]) tidA 0 30
      (hash_chunk []) []).1 = .Complete [] ∧
    (TransferState.new tidA 30 [⟨tidA, 0, 30⟩]).total_length = 30 :=
  ⟨by decide, by decide⟩

/-- Length of a fully-present ordered reassembly: if every chunk id has a
stored payload of prescribed length, the flattened `filterMap` has the sum
of those lengths. -/
theorem length_flatten_filterMap (cs : List ChunkId) (r : List (ChunkId × List Nat))
    (f : ChunkId → Nat)
    (h : ∀ c ∈ cs, ∃ q, lookupA r c = some q ∧ q.length = f c) :
    ((cs.filterMap (fun id => lookupA r id)).flatten).length = (cs.map f).sum := by
  induction cs with
  | nil => simp
  | cons hd tl ih =>
    obtain ⟨q, hq, hql⟩ := h hd (List.mem_cons_self hd tl)
    rw [List.filterMap_cons]
    simp [hq, hql, ih (fun c hc => h c (List.mem_cons_of_mem hd hc))]

/-- C2 (amended): when a receipt completes a transfer, the returned bytes
are the concatenation of the stored payloads in declared chunk order, with
every declared chunk contributing a stored payload; the byte count equals
`total_length` *provided* the delivered payload and every already-stored
payload are as long as their chunk's extent and the declared extents sum
to `total_length`.  (Without the length provisos the byte count can
differ, as `C2_counterexample` shows.) -/
theorem C2_complete_reassembly (s : TransferState) (t : List Nat) (a b : Nat)
    (h p bytes : List Nat) (s' : TransferState)
    (hplen : p.length = b - a)
    (hstored : ∀ c ∈ s.chunk_ids,
      ((lookupA s.received c).map List.length).getD (c.end_ - c.start) = c.end_ - c.start)
    (hsum : (s.chunk_ids.map (fun c => c.end_ - c.start)).sum = s.total_length)
    (hres : on_chunk_data_received s t a b h p = (.Complete bytes, s')) :
    bytes = (s'.chunk_ids.filterMap (fun id => lookupA s'.received id)).flatten ∧
    (∀ c ∈ s'.chunk_ids, (lookupA s'.received c).isSome) ∧
    bytes.length = s.total_length := by
  unfold on_chunk_data_received at hres
  by_cases htid : s.transfer_id ≠ t
  · rw [if_pos htid] at hres
    exact absurd hres (by simp)
  · rw [if_neg htid] at hres
    by_cases hver : verify_chunk p h
    · rw [if_neg (by simp [hver])] at hres
      by_cases hcomp : ((s.mark_received ⟨t, a, b⟩ p).is_complete : Prop)
      · rw [if_pos hcomp] at hres
        rw [Prod.mk.injEq] at hres
        obtain ⟨h1, h2⟩ := hres
        have hb : bytes = (s.mark_received ⟨t, a, b⟩ p).reassemble_into_bytes := by
          cases h1
          rfl
        subst h2
        have hids : (s.mark_received ⟨t, a, b⟩ p).chunk_ids = s.chunk_ids := rfl
        have hall : ∀ c ∈ s.chunk_ids,
            (lookupA (s.mark_received ⟨t, a, b⟩ p).received c).isSome := by
          simp only [TransferState.is_complete, List.all_eq_true, decide_eq_true_eq,
            hids] at hcomp
          exact hcomp
        have hlens : ∀ c ∈ s.chunk_ids, ∃ q,
            lookupA (s.mark_received ⟨t, a, b⟩ p).received c = some q ∧
              q.length = c.end_ - c.start := by
          intro c hc
          by_cases hceq : (⟨t, a, b⟩ : ChunkId) = c
          · refine ⟨p, ?_, ?_⟩
            · rw [← hceq]
              exact lookupA_upsertA_self _ _ _
            · rw [← hceq]
              exact hplen
          · have hne : lookupA (s.mark_received ⟨t, a, b⟩ p).received c =
                lookupA s.received c := lookupA_upsertA_ne _ _ _ _ hceq
            have hsome := hall c hc
            rw [hne] at hsome ⊢
            obtain ⟨q, hq⟩ := Option.isSome_iff_exists.mp hsome
            refine ⟨q, hq, ?_⟩
            have := hstored c hc
            rw [hq] at this
            simpa using this
        refine ⟨hb, ?_, ?_⟩
        · rw [hids]
          exact hall
        · rw [hb]
          unfold TransferState.reassemble_into_bytes
          rw [hids, length_flatten_filterMap s.chunk_ids _ _ hlens, hsum]
      · rw [if_neg hcomp] at hres
        exact absurd hres (by simp)
    · rw [if_pos (by simp [hver])] at hres
      exact absurd hres (by simp)

/-- C2 witness: a two-chunk transfer with chunk `[0,2)` already stored as
`[7,8]`; delivering `[9]` for `[2,3)` with its own hash completes and the
reassembly is `[7,8,9]`, of length `total_length = 3`. -/
theorem C2_witness :
    ([9] : List Nat).length = 3 - 2 ∧
    on_chunk_data_received
        ⟨tidA, 3, [⟨tidA, 0, 2⟩, ⟨tidA, 2, 3⟩], [(⟨tidA, 0, 2⟩, [7, 8])], []⟩
        tidA 2 3 (hash_chunk [9]) [9] =
      (.Complete [7, 8, 9],
        ⟨tidA, 3, [⟨tidA, 0, 2⟩, ⟨tidA, 2, 3⟩],
          [(⟨tidA, 0, 2⟩, [7, 8]), (⟨tidA, 2, 3⟩, [9])], []⟩) ∧
    ([7, 8, 9] : List Nat).length =
      (⟨tidA, 3, [⟨tidA, 0, 2⟩, ⟨tidA, 2, 3⟩], [(⟨tidA, 0, 2⟩, [7, 8])], []⟩ :
        TransferState).total_length :=
  ⟨by decide, by decide,
    (C2_complete_reassembly
      ⟨tidA, 3, [⟨tidA, 0, 2⟩, ⟨tidA, 2, 3⟩], [(⟨tidA, 0, 2⟩, [7, 8])], []⟩
      tidA 2 3 (hash_chunk [9]) [9] [7, 8, 9]
      ⟨tidA, 3, [⟨tidA, 0, 2⟩, ⟨tidA, 2, 3⟩],
        [(⟨tidA, 0, 2⟩, [7, 8]), (⟨tidA, 2, 3⟩, [9])], []⟩
      (by decide) (by decide) (by decide) (by decide)).2.2⟩

/-! ## C7: chunk splitting tiles the transfer

The characterization below shows `split_into_chunks` produces exactly the
claimed chunks — `⌈N/s'⌉` ranges `[k·s', min((k+1)·s', N))` — for every
input on which the `u64` addition in the loop cannot overflow.  The claim
as stated quantifies over *all* `u64` inputs, and at `N = 2^64 − 1`,
`s = 2^64 − 2` the second iteration's `start + size` overflows `u64`
(a panic in a debug build), so no chunk list is produced there. -/

/-- Characterization of the split loop: with positive chunk size, no
possible overflow, and sufficient fuel, `splitGo` from `start` produces
the `⌈(total − start)/size⌉` ranges `[start + k·size, min(start + (k+1)·size, total))`. -/
theorem splitGo_eq (tid : List Nat) (size total : Nat) (hsz : 0 < size)
    (hov : total + size ≤ 2 ^ 64) (fuel : Nat) :
    ∀ start, total - start ≤ fuel * size →
      splitGo tid size total fuel start =
        some ((List.range ((total - start + size - 1) / size)).map
          (fun k => ⟨tid, start + k * size, min (start + (k + 1) * size) total⟩)) := by
  induction fuel with
  | zero =>
    intro start hf
    have h1 : ¬(start < total) := by omega
    have h2 : total - start = 0 := by omega
    have h3 : (size - 1) / size = 0 := Nat.div_eq_of_lt (by omega)
    simp [splitGo, h1, h2, h3]
  | succ fuel ih =>
    intro start hf
    by_cases h1 : start < total
    · have hovstep : start + size < 2 ^ 64 := by omega
      rw [splitGo, if_pos h1, if_pos hovstep]
      by_cases hcase : start + size ≤ total
      · have he : min (start + size) total = start + size := min_eq_left hcase
        have hfr : total - (start + size) ≤ fuel * size := by
          rw [Nat.succ_mul] at hf
          omega
        simp only [he, ih (start + size) hfr]
        have hm : (total - start + size - 1) / size =
            (total - (start + size) + size - 1) / size + 1 := by
          have h4 : total - start + size - 1 = (total - (start + size) + size - 1) + size := by
            omega
          rw [h4, Nat.add_div_right _ hsz]
        rw [hm, List.range_succ_eq_map]
        simp only [List.map_cons, List.map_map, Option.some.injEq, List.cons.injEq]
        constructor
        · simp [he]
        · apply List.map_congr_left
          intro k _
          simp only [Function.comp_apply, Nat.succ_eq_add_one]
          have e1 : start + (k + 1) * size = start + size + k * size := by ring
          have e2 : start + (k + 1 + 1) * size = start + size + (k + 1) * size := by ring
          rw [e1, e2]
      · have he : min (start + size) total = total := min_eq_right (by omega)
        have hfr : total - total ≤ fuel * size := by simp
        have h3 : (total - total + size - 1) / size = 0 := by
          rw [Nat.sub_self]
          exact Nat.div_eq_of_lt (by omega)
        simp only [he, ih total hfr, h3, List.range_zero, List.map_nil]
        have hm : (total - start + size - 1) / size = 1 := by
          apply Nat.div_eq_of_lt_le
          · omega
          · omega
        have hr1 : List.range 1 = [0] := rfl
        rw [hm, hr1]
        simp only [List.map_cons, List.map_nil, Nat.zero_add, Nat.zero_mul, Nat.add_zero,
          Nat.one_mul, he]
    · have h2 : total - start = 0 := by omega
      have h3 : (size - 1) / size = 0 := Nat.div_eq_of_lt (by omega)
      rw [splitGo, if_neg h1]
      simp [h2, h3]

/-- C7 (amended): for every transfer id, length `N` and chunk size `s`, as
long as the effective chunk size `s'` cannot make the loop's `u64`
addition overflow (`N + s' ≤ 2^64`), `split_into_chunks` returns exactly
the `⌈N/s'⌉` chunks `[k·s', min((k+1)·s', N))`; they are nonempty, lie in
`[0, N)`, have extent at most `s'`, abut one another (each non-final chunk
ends where the next starts, at `(k+1)·s'`), and the final chunk ends at
`N`; `N = 0` yields no chunks.  (At overflow-triggering inputs the Rust
loop panics instead, see `C7_counterexample`.) -/
theorem C7_split_tiling (tid : List Nat) (N s size : Nat)
    (hsize : size = if s = 0 then DEFAULT_CHUNK_SIZE else s)
    (hov : N + size ≤ 2 ^ 64) :
    split_into_chunks tid N s =
      some ((List.range ((N + size - 1) / size)).map
        (fun k => ⟨tid, k * size, min ((k + 1) * size) N⟩)) ∧
    (N = 0 → (N + size - 1) / size = 0) ∧
    (∀ k, k < (N + size - 1) / size →
      k * size < min ((k + 1) * size) N ∧ min ((k + 1) * size) N ≤ N ∧
      min ((k + 1) * size) N - k * size ≤ size) ∧
    (∀ k, k + 1 < (N + size - 1) / size → min ((k + 1) * size) N = (k + 1) * size) ∧
    (0 < N → min (((N + size - 1) / size) * size) N = N) := by
  have hsz : 0 < size := by
    rw [hsize]
    by_cases h : s = 0
    · simp [h, DEFAULT_CHUNK_SIZE]
    · simp [h]
      omega
  have hkey : ∀ k : Nat, k < (N + size - 1) / size → k * size < N := by
    intro k hk
    have h1 : k + 1 ≤ (N + size - 1) / size := hk
    have h2 : (k + 1) * size ≤ (N + size - 1) / size * size :=
      Nat.mul_le_mul_right size h1
    have h3 : (N + size - 1) / size * size ≤ N + size - 1 := Nat.div_mul_le_self _ _
    have h4 : (k + 1) * size = k * size + size := by ring
    omega
  refine ⟨?_, ?_, ?_, ?_, ?_⟩
  · have hfuel : N - 0 ≤ (N / size + 2) * size := by
      have hq : size * (N / size) + N % size = N := Nat.div_add_mod N size
      have hr : N % size < size := Nat.mod_lt _ hsz
      have hmul : (N / size + 2) * size = size * (N / size) + 2 * size := by ring
      omega
    have h := splitGo_eq tid size N hsz hov (N / size + 2) 0 hfuel
    simp only [split_into_chunks, ← hsize, Nat.sub_zero] at h ⊢
    rw [h]
    simp
  · intro h0
    rw [h0]
    exact Nat.div_eq_of_lt (by omega)
  · intro k hk
    have h5 := hkey k hk
    have h4 : (k + 1) * size = k * size + size := by ring
    refine ⟨?_, ?_, ?_⟩
    · have : k * size < (k + 1) * size := by omega
      exact lt_min this h5
    · exact min_le_right _ _
    · have := min_le_left ((k + 1) * size) N
      omega
  · intro k hk
    have h5 := hkey (k + 1) hk
    exact min_eq_left (by omega)
  · intro hN
    have hq : size * ((N + size - 1) / size) + (N + size - 1) % size = N + size - 1 :=
      Nat.div_add_mod _ _
    have hr : (N + size - 1) % size < size := Nat.mod_lt _ hsz
    have hcomm : (N + size - 1) / size * size = size * ((N + size - 1) / size) := by ring
    exact min_eq_right (by omega)

/-- C7 witness: the spec's own scenario — `split(tid, 100, 30)` yields the
four chunks `[0,30), [30,60), [60,90), [90,100)`. -/
theorem C7_witness :
    split_into_chunks tidA 100 30 =
      some [⟨tidA, 0, 30⟩, ⟨tidA, 30, 60⟩, ⟨tidA, 60, 90⟩, ⟨tidA, 90, 100⟩] := by
  have h := (C7_split_tiling tidA 100 30 30 (by decide) (by decide)).1
  rw [h]
  decide

/-- C7 counterexample: at `N = 2^64 − 1`, `s = 2^64 − 2` (valid `u64`
values) the second loop iteration computes `start + size =
(2^64 − 2) + (2^64 − 2) ≥ 2^64`, overflowing `u64`: the Rust loop panics
(debug) rather than producing `⌈N/s⌉ = 2` tiling chunks, refuting the
claim's universal quantification. -/
theorem C7_counterexample :
    split_into_chunks tidB (2 ^ 64 - 1) (2 ^ 64 - 2) = none := by
  decide

/-! ## C8: frame round-trip

`decode_frame ∘ encode_frame` is the identity (returning the full frame
length) for every well-formed message whose serialized payload fits the
16 MiB cap.  The claim as stated quantifies over every message
`encode_frame` *accepts* — but `encode_frame` casts the payload length to
`u32` with a wrapping `as` cast, so a `ChunkData` whose serialization is
exactly `2^32` bytes long is accepted with a length field of 0, and
decoding the resulting frame fails. -/

/-- Reading back exactly the bytes just written. -/
theorem readN_append (l rest : List Nat) (n : Nat) (h : l.length = n) :
    readN n (l ++ rest) = some (l, rest) := by
  subst h
  simp [readN, List.take_left, List.drop_left]

theorem leVal_u16 (v : Nat) : leVal (u16LE v) = v % 2 ^ 16 := by
  simp [leVal, u16LE]
  omega

theorem leVal_u32 (v : Nat) : leVal (u32LE v) = v % 2 ^ 32 := by
  simp [leVal, u32LE]
  omega

theorem leVal_u64 (v : Nat) : leVal (u64LE v) = v % 2 ^ 64 := by
  simp [leVal, u64LE]
  omega

theorem readU16_u16LE (v : Nat) (rest : List Nat) :
    readU16 (u16LE v ++ rest) = some (v % 2 ^ 16, rest) := by
  rw [readU16, readN_append _ _ _ (by rfl)]
  simp [leVal_u16]

theorem readU32_u32LE (v : Nat) (rest : List Nat) :
    readU32 (u32LE v ++ rest) = some (v % 2 ^ 32, rest) := by
  rw [readU32, readN_append _ _ _ (by rfl)]
  simp [leVal_u32]

theorem readU64_u64LE (v : Nat) (rest : List Nat) :
    readU64 (u64LE v ++ rest) = some (v % 2 ^ 64, rest) := by
  rw [readU64, readN_append _ _ _ (by rfl)]
  simp [leVal_u64]

theorem readVec_vecBytes (l rest : List Nat) (h : l.length < 2 ^ 64) :
    readVec (vecBytes l ++ rest) = some (l, rest) := by
  have h1 : vecBytes l ++ rest = u64LE l.length ++ (l ++ rest) := by
    simp [vecBytes]
  rw [h1]
  simp only [readVec, readU64_u64LE, Nat.mod_eq_of_lt h]
  exact readN_append l rest _ rfl

/-- Bincode deserialization inverts serialization on well-formed messages. -/
theorem deserialize_serialize (m : Message) (hwf : m.WF) :
    deserializeMessage (serializeMessage m) = some m := by
  cases m with
  | Beacon v d pk port =>
    obtain ⟨db⟩ := d
    obtain ⟨pkb⟩ := pk
    obtain ⟨hv, hd, hpk, hport⟩ := hwf
    simp only [DeviceId.bytes] at hd
    simp only [PublicKey.bytes] at hpk
    have h1 : ∀ rest : List Nat, readVec (vecBytes db ++ rest) = some (db, rest) :=
      fun rest => readVec_vecBytes db rest (by omega)
    have h2 : ∀ rest : List Nat, readVec (vecBytes pkb ++ rest) = some (pkb, rest) :=
      fun rest => readVec_vecBytes pkb rest (by omega)
    have h3 : readU16 (u16LE port) = some (port % 2 ^ 16, []) := by
      have := readU16_u16LE port []
      simpa using this
    simp [serializeMessage, deserializeMessage, List.append_assoc, readU32_u32LE,
      readU8, h1, h2, h3, hd, hpk, Nat.mod_eq_of_lt hv, Nat.mod_eq_of_lt hport]
    omega
  | DiscoveryResponse v d pk port =>
    obtain ⟨db⟩ := d
    obtain ⟨pkb⟩ := pk
    obtain ⟨hv, hd, hpk, hport⟩ := hwf
    simp only [DeviceId.bytes] at hd
    simp only [PublicKey.bytes] at hpk
    have h1 : ∀ rest : List Nat, readVec (vecBytes db ++ rest) = some (db, rest) :=
      fun rest => readVec_vecBytes db rest (by omega)
    have h2 : ∀ rest : List Nat, readVec (vecBytes pkb ++ rest) = some (pkb, rest) :=
      fun rest => readVec_vecBytes pkb rest (by omega)
    have h3 : readU16 (u16LE port) = some (port % 2 ^ 16, []) := by
      have := readU16_u16LE port []
      simpa using this
    simp [serializeMessage, deserializeMessage, List.append_assoc, readU32_u32LE,
      readU8, h1, h2, h3, hd, hpk, Nat.mod_eq_of_lt hv, Nat.mod_eq_of_lt hport]
    omega
  | Join d =>
    obtain ⟨db⟩ := d
    simp only [Message.WF, DeviceId.bytes] at hwf
    have h1 : readVec (vecBytes db) = some (db, []) := by
      have := readVec_vecBytes db [] (by omega)
      simpa using this
    simp [serializeMessage, deserializeMessage, readU32_u32LE, h1, hwf]
  | Leave d =>
    obtain ⟨db⟩ := d
    simp only [Message.WF, DeviceId.bytes] at hwf
    have h1 : readVec (vecBytes db) = some (db, []) := by
      have := readVec_vecBytes db [] (by omega)
      simpa using this
    simp [serializeMessage, deserializeMessage, readU32_u32LE, h1, hwf]
  | Heartbeat d =>
    obtain ⟨db⟩ := d
    simp only [Message.WF, DeviceId.bytes] at hwf
    have h1 : readVec (vecBytes db) = some (db, []) := by
      have := readVec_vecBytes db [] (by omega)
      simpa using this
    simp [serializeMessage, deserializeMessage, readU32_u32LE, h1, hwf]
  | ChunkRequest t s e =>
    obtain ⟨ht, hs, he⟩ := hwf
    have h1 : ∀ rest : List Nat, readN 16 (t ++ rest) = some (t, rest) :=
      fun rest => readN_append t rest 16 ht
    have h2 : readU64 (u64LE e) = some (e % 2 ^ 64, []) := by
      have := readU64_u64LE e []
      simpa using this
    simp [serializeMessage, deserializeMessage, List.append_assoc, readU32_u32LE,
      h1, h2, readU64_u64LE, Nat.mod_eq_of_lt hs, Nat.mod_eq_of_lt he]
    omega
  | ChunkData t s e h p =>
    obtain ⟨ht, hs, he, hh, hp⟩ := hwf
    have h1 : ∀ rest : List Nat, readN 16 (t ++ rest) = some (t, rest) :=
      fun rest => readN_append t rest 16 ht
    have h2 : ∀ rest : List Nat, readN 32 (h ++ rest) = some (h, rest) :=
      fun rest => readN_append h rest 32 hh
    have h3 : readVec (vecBytes p) = some (p, []) := by
      have := readVec_vecBytes p [] hp
      simpa using this
    simp [serializeMessage, deserializeMessage, List.append_assoc, readU32_u32LE,
      h1, h2, h3, readU64_u64LE, Nat.mod_eq_of_lt hs, Nat.mod_eq_of_lt he]
    omega
  | Nack t s e =>
    obtain ⟨ht, hs, he⟩ := hwf
    have h1 : ∀ rest : List Nat, readN 16 (t ++ rest) = some (t, rest) :=
      fun rest => readN_append t rest 16 ht
    have h2 : readU64 (u64LE e) = some (e % 2 ^ 64, []) := by
      have := readU64_u64LE e []
      simpa using this
    simp [serializeMessage, deserializeMessage, List.append_assoc, readU32_u32LE,
      h1, h2, readU64_u64LE, Nat.mod_eq_of_lt hs, Nat.mod_eq_of_lt he]
    omega

/-- C8 (amended): for every well-formed message whose bincode payload is at
most 16 MiB, `encode_frame` accepts and `decode_frame` returns exactly the
message and the full frame length.  (For payloads of exactly `2^32` bytes
the `u32` length cast wraps and the round-trip fails: `C8_counterexample`.) -/
theorem C8_frame_roundtrip (m : Message) (hwf : m.WF)
    (hlen : (serializeMessage m).length ≤ MAX_FRAME_LEN) :
    encode_frame m = .ok (u32LE (serializeMessage m).length ++ serializeMessage m) ∧
    decode_frame (u32LE (serializeMessage m).length ++ serializeMessage m) =
      .ok (m, (u32LE (serializeMessage m).length ++ serializeMessage m).length) := by
  have hsmall : (serializeMessage m).length < 2 ^ 32 := by
    simp only [MAX_FRAME_LEN] at hlen
    omega
  have hmod : (serializeMessage m).length % 2 ^ 32 = (serializeMessage m).length :=
    Nat.mod_eq_of_lt hsmall
  have hflen : (u32LE (serializeMessage m).length ++ serializeMessage m).length =
      4 + (serializeMessage m).length := by
    simp [u32LE]
    omega
  constructor
  · simp only [encode_frame, hmod]
    rw [if_neg (by omega)]
  · simp only [decode_frame, hflen]
    rw [if_neg (by omega)]
    have htake : (u32LE (serializeMessage m).length ++ serializeMessage m).take 4 =
        u32LE (serializeMessage m).length := by
      have h4 : (u32LE (serializeMessage m).length).length = 4 := by simp [u32LE]
      rw [← h4, List.take_left]
    have hdrop : (u32LE (serializeMessage m).length ++ serializeMessage m).drop 4 =
        serializeMessage m := by
      have h4 : (u32LE (serializeMessage m).length).length = 4 := by simp [u32LE]
      rw [← h4, List.drop_left]
    rw [htake, leVal_u32, hmod]
    rw [if_neg (by omega), if_neg (by omega), hdrop, List.take_length,
      deserialize_serialize m hwf]

/-- C8 witness: the round-trip at a concrete `Heartbeat` frame. -/
theorem C8_witness :
    (Message.Heartbeat peerId1).WF ∧
    encode_frame (.Heartbeat peerId1) =
      .ok (u32LE (serializeMessage (.Heartbeat peerId1)).length ++
        serializeMessage (.Heartbeat peerId1)) ∧
    decode_frame (u32LE (serializeMessage (.Heartbeat peerId1)).length ++
        serializeMessage (.Heartbeat peerId1)) =
      .ok (.Heartbeat peerId1,
        (u32LE (serializeMessage (.Heartbeat peerId1)).length ++
          serializeMessage (.Heartbeat peerId1)).length) :=
  ⟨by decide,
    (C8_frame_roundtrip (.Heartbeat peerId1) (by decide) (by decide)).1,
    (C8_frame_roundtrip (.Heartbeat peerId1) (by decide) (by decide)).2⟩

/-- The pathological message: a `ChunkData` whose bincode serialization is
exactly `2^32` bytes (payload `2^32 − 76` plus 76 bytes of tag and fields). -/
def oversizeMsg : Message :=
  .ChunkData (List.replicate 16 0) 0 0 (List.replicate 32 0)
    (List.replicate (2 ^ 32 - 76) 0)

/-- Serialized size of a `ChunkData`: 76 header bytes plus the payload. -/
theorem serializeChunkData_length (t : List Nat) (s e : Nat) (h p : List Nat)
    (ht : t.length = 16) (hh : h.length = 32) :
    (serializeMessage (.ChunkData t s e h p)).length = 76 + p.length := by
  simp [serializeMessage, vecBytes, u32LE, u64LE, List.length_append, ht, hh]
  omega

theorem oversizeMsg_length : (serializeMessage oversizeMsg).length = 2 ^ 32 := by
  unfold oversizeMsg
  rw [serializeChunkData_length _ 0 0 _ _ (by rw [List.length_replicate])
    (by rw [List.length_replicate]), List.length_replicate]
  norm_num

/-- C8 counterexample: `encode_frame` *accepts* `oversizeMsg` — the
`2^32`-byte payload's length wraps to 0 in the `u32` cast — but decoding
the resulting frame reads a zero-length payload and fails with a decode
error instead of returning the message, refuting the claim for this
accepted message. -/
theorem C8_counterexample :
    encode_frame oversizeMsg = .ok (u32LE 0 ++ serializeMessage oversizeMsg) ∧
    decode_frame (u32LE 0 ++ serializeMessage oversizeMsg) = .error .Decode := by
  have h4 : (u32LE 0).length = 4 := by norm_num [u32LE]
  have hmod : (serializeMessage oversizeMsg).length % 2 ^ 32 = 0 := by
    rw [oversizeMsg_length, Nat.mod_self]
  have hflen : (u32LE 0 ++ serializeMessage oversizeMsg).length = 4 + 2 ^ 32 := by
    rw [List.length_append, oversizeMsg_length, h4]
  have htake : (u32LE 0 ++ serializeMessage oversizeMsg).take 4 = u32LE 0 := by
    rw [← h4, List.take_left]
  constructor
  · simp only [encode_frame]
    rw [hmod, if_neg (by decide)]
  · simp only [decode_frame]
    rw [htake, leVal_u32, Nat.zero_mod, hflen, List.take_zero]
    rw [if_neg (by decide), if_neg (by decide), if_neg (by decide)]
    rfl

end PeaPod
